import Mathlib

/-!
Verification development for the memory-management core of the Canary kernel
(`src/memory/frame.rs`, `src/memory/page.rs`, `src/multiboot.rs`).

Machine integers (`usize`, `u64`) are modelled as `Nat`, with an explicit
`% 2 ^ 64` at the points where the source performs a cast or where a shift
can discard high bits.  Fallible operations are modelled with `Option`.
The self-recursive `BumpAllocator::allocate` is modelled with an explicit
step counter (`allocateF`) together with a proved bound (`fuelBound`) within
which the recursion always completes; `allocate` is the resulting total
function.
-/

set_option maxRecDepth 100000

namespace Canary

/-! ### Frames (src/memory/frame.rs) -/

/-- `FRAME_SIZE` from frame.rs: the size of a single frame in bytes. -/
def FRAME_SIZE : Nat := 4096

/-- `Frame`: a 4096-byte section of physical memory, identified by its index. -/
structure Frame where
  id : Nat
deriving DecidableEq, Repr

/-- `Frame::containing`: the frame that contains the given physical address. -/
def Frame.containing (address : Nat) : Frame :=
  ⟨address / FRAME_SIZE⟩

/-- Modelled from the spec: `Frame::start` is called by `Entry::set` in
page.rs but its definition is not under `src/`.  Per the spec a frame
"identifies one 4096-byte unit of physical memory by an integer index
(`physical_address / 4096`)", so its starting physical address is its index
times the frame size. -/
def Frame.start (f : Frame) : Nat :=
  f.id * FRAME_SIZE

/-! ### Memory areas and kernel sections (src/multiboot.rs) -/

/-- `MemoryArea` from multiboot.rs: a memory-map entry with a start address,
a length in bytes and a `kind` classification word. -/
structure MemoryArea where
  start : Nat
  size : Nat
  kind : Nat
deriving DecidableEq, Repr

/-- `MemoryArea::kind()` from multiboot.rs: the area is usable exactly when
its raw kind word is 1 (`MemoryAreaType::Usable`), otherwise unusable. -/
def MemoryArea.kindIsUsable (a : MemoryArea) : Bool :=
  a.kind == 1

/-- `Section` from multiboot.rs: an ELF section with a physical start
address and a size in bytes. -/
structure Section where
  start : Nat
  size : Nat
deriving DecidableEq, Repr

/-! ### Regions (src/memory/frame.rs) -/

/-- `Region`: a closed interval of frames (`start` .. `endf` inclusive,
the source's `end` field). -/
structure Region where
  start : Frame
  endf : Frame
deriving DecidableEq, Repr

/-- `Region::contains`: inclusive range test `frame >= start && frame <= end`. -/
def Region.contains (r : Region) (f : Frame) : Bool :=
  decide (r.start.id ≤ f.id ∧ f.id ≤ r.endf.id)

/-- `Region::from_multiboot_info`: the region encasing the multiboot
information structure (`info.start()` .. `info.start() + info.size() - 1`). -/
def Region.from_multiboot_info (info_start info_size : Nat) : Region :=
  ⟨Frame.containing info_start, Frame.containing (info_start + info_size - 1)⟩

/-- Minimum of a list of naturals (`Iterator::min`); `none` on an empty list,
where the source's `unwrap()` would panic. -/
def listMin : List Nat → Option Nat
  | [] => none
  | x :: xs =>
    match listMin xs with
    | none => some x
    | some m => some (min x m)

/-- Maximum of a list of naturals (`Iterator::max`); `none` on an empty list,
where the source's `unwrap()` would panic. -/
def listMax : List Nat → Option Nat
  | [] => none
  | x :: xs =>
    match listMax xs with
    | none => some x
    | some m => some (max x m)

/-- `Region::from_kernel_sections`: spans from the minimum section start to
the maximum section end (`start + size`).  `none` models the `unwrap()`
panic on an empty section list. -/
def Region.from_kernel_sections (sections : List Section) : Option Region :=
  match listMin (sections.map Section.start),
        listMax (sections.map (fun s => s.start + s.size)) with
  | some kernel_start, some kernel_end =>
    some ⟨Frame.containing kernel_start, Frame.containing kernel_end⟩
  | _, _ => none

/-! ### The bump allocator (src/memory/frame.rs) -/

/-- `BumpAllocator`: cursor, memory-map areas, currently consumed area and
the two invalid regions (kept as a list, in the source's array order). -/
structure BumpAllocator where
  next_free_frame : Frame
  memory_areas : List MemoryArea
  current_area : Option MemoryArea
  invalid_regions : List Region
deriving DecidableEq, Repr

/-- `Iterator::min_by_key(|area| area.start())`: the first element attaining
the minimal start address, `none` on an empty list. -/
def minByStart : List MemoryArea → Option MemoryArea
  | [] => none
  | a :: rest =>
    match minByStart rest with
    | none => some a
    | some b => if a.start ≤ b.start then some a else some b

/-- `BumpAllocator::advance_memory_area`: select, among the areas whose last
frame is at or past the cursor, the one with the lowest start address, and
bump the cursor up to its first frame if the cursor is below it. -/
def advance_memory_area (s : BumpAllocator) : BumpAllocator :=
  let candidates := s.memory_areas.filter (fun area =>
    decide (s.next_free_frame.id ≤ (Frame.containing (area.start + area.size - 1)).id))
  match minByStart candidates with
  | some area =>
    let start_frame := Frame.containing area.start
    if s.next_free_frame.id < start_frame.id then
      { s with current_area := some area, next_free_frame := start_frame }
    else
      { s with current_area := some area }
  | none => { s with current_area := none }

/-- The loop body of `BumpAllocator::within_invalid_region`: the first region
containing the frame yields the frame one past that region's end. -/
def skipInvalid : List Region → Frame → Option Frame
  | [], _ => none
  | r :: rest, f =>
    if r.contains f then some ⟨r.endf.id + 1⟩ else skipInvalid rest f

/-- `BumpAllocator::within_invalid_region`: `true` plus the adjusted state if
the cursor was inside an invalid region, `false` with the state unchanged
otherwise. -/
def within_invalid_region (s : BumpAllocator) : Bool × BumpAllocator :=
  match skipInvalid s.invalid_regions s.next_free_frame with
  | some f => (true, { s with next_free_frame := f })
  | none => (false, s)

/-- `BumpAllocator::allocate`, with an explicit step counter for the
self-recursion (`none` means the counter ran out; `fuelBound` below always
suffices). -/
def allocateF : Nat → BumpAllocator → Option (Option Frame × BumpAllocator)
  | 0, _ => none
  | n + 1, s =>
    match s.current_area with
    | some current_area =>
      let area_end := current_area.start + current_area.size - 1
      let area_limit := Frame.containing area_end
      if area_limit.id < s.next_free_frame.id then
        allocateF n (advance_memory_area s)
      else
        match within_invalid_region s with
        | (true, s') => allocateF n s'
        | (false, s') =>
          some (some s'.next_free_frame,
                { s' with next_free_frame := ⟨s'.next_free_frame.id + 1⟩ })
    | none => some (none, s)

/-- Upper bound on every frame index the cursor can be moved to by
skipping an invalid region. -/
def regionsBound : List Region → Nat
  | [] => 0
  | r :: rest => max (r.endf.id + 1) (regionsBound rest)

/-- Upper bound on every frame index the cursor can be moved to by
advancing to the start of a memory area. -/
def areasBound : List MemoryArea → Nat
  | [] => 0
  | a :: rest => max (Frame.containing a.start).id (areasBound rest)

/-- Bound on the allocator's cursor movement. -/
def Mbound (s : BumpAllocator) : Nat :=
  max (regionsBound s.invalid_regions) (areasBound s.memory_areas)

/-- 1 when the next `allocate` step would advance the memory area, else 0. -/
def c1flag (s : BumpAllocator) : Nat :=
  match s.current_area with
  | some a =>
    if (Frame.containing (a.start + a.size - 1)).id < s.next_free_frame.id then 1 else 0
  | none => 0

/-- Termination measure for `allocate`'s self-recursion. -/
def measureA (s : BumpAllocator) : Nat :=
  2 * (Mbound s - s.next_free_frame.id) + c1flag s

/-- Step budget within which `allocate`'s recursion always completes. -/
def fuelBound (s : BumpAllocator) : Nat :=
  measureA s + 1

/-- `BumpAllocator::allocate` as a total function. -/
def allocate (s : BumpAllocator) : Option Frame × BumpAllocator :=
  (allocateF (fuelBound s) s).getD (none, s)

/-- `BumpAllocator::new`: cursor at frame 0, invalid regions from the
multiboot info footprint and the kernel sections (in that order), then one
manual `advance_memory_area`.  `none` models the panic on an empty section
list. -/
def BumpAllocator.new (info_start info_size : Nat) (sections : List Section)
    (areas : List MemoryArea) : Option BumpAllocator :=
  (Region.from_kernel_sections sections).map fun kernel_region =>
    advance_memory_area
      { next_free_frame := Frame.containing 0
        memory_areas := areas
        current_area := none
        invalid_regions := [Region.from_multiboot_info info_start info_size,
                            kernel_region] }

/-- Repeated calls to `allocate`, collecting each call's result. -/
def runAllocate : Nat → BumpAllocator → List (Option Frame) × BumpAllocator
  | 0, s => ([], s)
  | n + 1, s =>
    let r := allocate s
    let rest := runAllocate n r.2
    (r.1 :: rest.1, rest.2)

/-- The frames successfully handed out by `n` calls to `allocate`. -/
def runFrames (n : Nat) (s : BumpAllocator) : List Frame :=
  (runAllocate n s).1.filterMap id

/-! ### Pages (src/memory/page.rs) -/

/-- `PAGE_SIZE` from page.rs, equal to the frame size. -/
def PAGE_SIZE : Nat := FRAME_SIZE

/-- `Page`: a 4096-byte section of virtual memory, identified by its index. -/
structure Page where
  id : Nat
deriving DecidableEq, Repr

/-- `Page::containing`: the page that contains the given virtual address. -/
def Page.containing (address : Nat) : Page :=
  ⟨address / PAGE_SIZE⟩

/-- `Page::start`: the starting virtual address of the page (`id << 12`,
a `usize` shift, hence the reduction modulo `2 ^ 64`). -/
def Page.start (p : Page) : Nat :=
  (p.id <<< 12) % 2 ^ 64

/-- `Page::page_table_index`: `((self.id) >> (level * 9)) & 0x1ff`. -/
def Page.page_table_index (p : Page) (level : Nat) : Nat :=
  (p.id >>> (level * 9)) &&& 0x1ff

/-- Follows the spec's words (not the source): "the 9-bit index into that
level's table (`(id >> (level-1)*9) & 0x1FF`)" for a hierarchy level 1-4. -/
def page_table_index_spec (p : Page) (level : Nat) : Nat :=
  (p.id >>> ((level - 1) * 9)) &&& 0x1ff

/-! ### Page table entries (src/memory/page.rs) -/

/-- `ENTRY_PRESENT`: bit 0. -/
def ENTRY_PRESENT : Nat := 1

/-- `ENTRY_HUGE`: bit 7. -/
def ENTRY_HUGE : Nat := 1 <<< 7

/-- `ENTRY_WRITABLE`: bit 1. -/
def ENTRY_WRITABLE : Nat := 1 <<< 1

/-- `Entry`: an 8-byte page table entry (a `u64`, kept below `2 ^ 64`). -/
structure Entry where
  val : Nat
deriving DecidableEq, Repr

/-- `Entry::set`: overwrite the entry with `frame.start() as u64 | flags`
(both operands are 64-bit values, hence the reductions modulo `2 ^ 64`). -/
def Entry.set (frame : Frame) (flags : Nat) : Entry :=
  ⟨(Frame.start frame % 2 ^ 64) ||| (flags % 2 ^ 64)⟩

/-- `Entry::is_unused`: the entry is exactly the bit pattern zero. -/
def Entry.is_unused (e : Entry) : Bool :=
  e.val == 0

/-- `Entry::set_unused`: the all-zero entry. -/
def Entry.set_unused : Entry :=
  ⟨0⟩

/-- `Entry::is_present`: bit 0 test. -/
def Entry.is_present (e : Entry) : Bool :=
  (e.val &&& ENTRY_PRESENT) == ENTRY_PRESENT

/-- `Entry::is_huge`: bit 7 test. -/
def Entry.is_huge (e : Entry) : Bool :=
  (e.val &&& ENTRY_HUGE) == ENTRY_HUGE

/-- `Entry::pointed_frame`: the frame containing the entry's address bits,
only when the entry is present. -/
def Entry.pointed_frame (e : Entry) : Option Frame :=
  if e.is_present then
    some (Frame.containing (e.val &&& 0x000ffffffffff000))
  else
    none

/-! ### Page tables (src/memory/page.rs)

The hierarchy-level phantom parameter of the source's `Table<L>` only
restricts which level the entries of a table describe; the operations
embedded here (`index_addr`, `create`) are those available on levels 2-4
(`HierarchicalLevel`) and their arithmetic does not depend on the level
tag, so the embedding uses a single table type.  The table's own virtual
address (`self as *const _ as VirtualAddr` in the source) is passed
explicitly as `table_address`. -/

/-- `Table`: the 512 entries of one page table. -/
structure Table where
  entries : List Entry
deriving DecidableEq, Repr

/-- `Table::set_all_unused`: zero every entry. -/
def Table.set_all_unused (t : Table) : Table :=
  ⟨t.entries.map (fun _ => Entry.set_unused)⟩

/-- `Table::index_addr_unchecked`:
`(table_address << 9) | (index << 12)`, both `usize` shifts. -/
def Table.index_addr_unchecked (table_address index : Nat) : Nat :=
  ((table_address <<< 9) % 2 ^ 64) ||| ((index <<< 12) % 2 ^ 64)

/-- `Table::index_addr`: the virtual address of the lower-level table at
`index`, or `none` if the entry there is not present or is huge.  An
out-of-range index (which would panic in the source) is also `none`. -/
def Table.index_addr (t : Table) (table_address index : Nat) : Option Nat :=
  match t.entries[index]? with
  | some entry =>
    if entry.is_present && !entry.is_huge then
      some (Table.index_addr_unchecked table_address index)
    else
      none
  | none => none

/-- `Table::create`: return the address of the lower-level table at `index`,
allocating a fresh frame and overwriting the entry with
`PRESENT | WRITABLE` if `index_addr` found none.  The result carries the
updated parent table, the updated allocator and the child table's virtual
address; the zeroing (`set_all_unused`) of a freshly created child happens
at that separate address, not inside the parent table value.  `none` models
the `expect("out of memory")` panic. -/
def Table.create (t : Table) (table_address index : Nat) (allocator : BumpAllocator) :
    Option (Table × BumpAllocator × Nat) :=
  match t.index_addr table_address index with
  | some addr => some (t, allocator, addr)
  | none =>
    match allocate allocator with
    | (some frame, allocator') =>
      some (⟨t.entries.set index (Entry.set frame (ENTRY_PRESENT ||| ENTRY_WRITABLE))⟩,
            allocator',
            Table.index_addr_unchecked table_address index)
    | (none, _) => none

end Canary

namespace Canary

/-! ### Helper lemmas about the allocator -/

theorem minByStart_mem : ∀ {l : List MemoryArea} {a : MemoryArea},
    minByStart l = some a → a ∈ l := by
  intro l
  induction l with
  | nil => intro a h; simp [minByStart] at h
  | cons x xs ih =>
    intro a h
    unfold minByStart at h
    split at h
    · cases h; exact List.mem_cons_self _ _
    · next b hm =>
      split at h
      · cases h; exact List.mem_cons_self _ _
      · cases h; exact List.mem_cons_of_mem _ (ih hm)

theorem le_areasBound {l : List MemoryArea} {a : MemoryArea} (h : a ∈ l) :
    (Frame.containing a.start).id ≤ areasBound l := by
  induction l with
  | nil => cases h
  | cons x xs ih =>
    rcases List.mem_cons.mp h with rfl | hx
    · simp only [areasBound]; omega
    · have := ih hx; simp only [areasBound]; omega

theorem le_regionsBound {l : List Region} {r : Region} (h : r ∈ l) :
    r.endf.id + 1 ≤ regionsBound l := by
  induction l with
  | nil => cases h
  | cons x xs ih =>
    rcases List.mem_cons.mp h with rfl | hx
    · simp only [regionsBound]; omega
    · have := ih hx; simp only [regionsBound]; omega

theorem skipInvalid_eq_some : ∀ {l : List Region} {f f' : Frame},
    skipInvalid l f = some f' →
    ∃ r ∈ l, r.contains f = true ∧ f' = ⟨r.endf.id + 1⟩ := by
  intro l
  induction l with
  | nil => intro f f' h; simp [skipInvalid] at h
  | cons r rest ih =>
    intro f f' h
    unfold skipInvalid at h
    by_cases hc : r.contains f
    · rw [if_pos hc] at h; cases h; exact ⟨r, List.mem_cons_self _ _, hc, rfl⟩
    · rw [if_neg hc] at h
      obtain ⟨r', hr', hc', rfl⟩ := ih h
      exact ⟨r', List.mem_cons_of_mem _ hr', hc', rfl⟩

theorem contains_bounds {r : Region} {f : Frame} (h : r.contains f = true) :
    r.start.id ≤ f.id ∧ f.id ≤ r.endf.id := by
  simpa [Region.contains] using h

theorem c1flag_le_one (s : BumpAllocator) : c1flag s ≤ 1 := by
  unfold c1flag
  split
  · split <;> omega
  · omega

theorem measure_decreases_advance {s : BumpAllocator} {a : MemoryArea}
    (hc : s.current_area = some a)
    (hlim : (Frame.containing (a.start + a.size - 1)).id < s.next_free_frame.id) :
    measureA (advance_memory_area s) < measureA s := by
  have hms : c1flag s = 1 := by unfold c1flag; rw [hc]; simp [hlim]
  unfold measureA
  rw [hms]
  simp only [advance_memory_area]
  split
  · next area hmin =>
    have hmem := minByStart_mem hmin
    have hmem' : area ∈ s.memory_areas := (List.mem_filter.mp hmem).1
    have hflt : s.next_free_frame.id ≤ (Frame.containing (area.start + area.size - 1)).id :=
      of_decide_eq_true (List.mem_filter.mp hmem).2
    split
    · next hb =>
      have hub : (Frame.containing area.start).id ≤ areasBound s.memory_areas :=
        le_areasBound hmem'
      have hflag := c1flag_le_one
        { s with current_area := some area, next_free_frame := Frame.containing area.start }
      simp only [Mbound] at *
      omega
    · next hb =>
      have hflag : c1flag { s with current_area := some area } = 0 := by
        unfold c1flag
        exact if_neg (Nat.not_lt.mpr hflt)
      simp only [hflag, Mbound]
      omega
  · next hmin =>
    have hflag : c1flag { s with current_area := none } = 0 := by unfold c1flag; rfl
    simp only [hflag, Mbound]
    omega

theorem measure_decreases_skip {s s' : BumpAllocator} {a : MemoryArea}
    (hc : s.current_area = some a)
    (hlim : s.next_free_frame.id ≤ (Frame.containing (a.start + a.size - 1)).id)
    (hskip : within_invalid_region s = (true, s')) :
    measureA s' < measureA s := by
  have hms : c1flag s = 0 := by
    unfold c1flag; rw [hc]; exact if_neg (by omega)
  unfold within_invalid_region at hskip
  cases hk : skipInvalid s.invalid_regions s.next_free_frame with
  | none => rw [hk] at hskip; simp at hskip
  | some f =>
    rw [hk] at hskip
    simp only [Prod.mk.injEq, true_and] at hskip
    subst hskip
    obtain ⟨r, hr, hcont, rfl⟩ := skipInvalid_eq_some hk
    have hb := contains_bounds hcont
    have hub : r.endf.id + 1 ≤ regionsBound s.invalid_regions := le_regionsBound hr
    have hflag := c1flag_le_one { s with next_free_frame := ⟨r.endf.id + 1⟩ }
    unfold measureA
    rw [hms]
    simp only [Mbound] at *
    omega

theorem allocateF_isSome : ∀ (n : Nat) (s : BumpAllocator),
    measureA s < n → (allocateF n s).isSome = true := by
  intro n
  induction n with
  | zero => intro s h; omega
  | succ n ih =>
    intro s h
    simp only [allocateF]
    split
    · next a hc =>
      split
      · next hlim =>
        exact ih _ (by have := measure_decreases_advance hc hlim; omega)
      · next hlim =>
        split
        · next s' hw =>
          exact ih _
            (by have := measure_decreases_skip hc (Nat.le_of_not_lt hlim) hw; omega)
        · next s' hw => simp
    · simp

theorem allocateF_fuelBound_eq (s : BumpAllocator) :
    allocateF (fuelBound s) s = some (allocate s) := by
  have h : (allocateF (fuelBound s) s).isSome = true :=
    allocateF_isSome _ _ (by unfold fuelBound; omega)
  cases hh : allocateF (fuelBound s) s with
  | none => rw [hh] at h; simp at h
  | some r => simp [allocate, hh]

end Canary

namespace Canary

theorem advance_cursor_le (s : BumpAllocator) :
    s.next_free_frame.id ≤ (advance_memory_area s).next_free_frame.id := by
  simp only [advance_memory_area]
  split
  · split
    · next hb => exact Nat.le_of_lt hb
    · exact Nat.le_refl _
  · exact Nat.le_refl _

theorem within_true_cursor {s s' : BumpAllocator}
    (h : within_invalid_region s = (true, s')) :
    s.next_free_frame.id < s'.next_free_frame.id := by
  unfold within_invalid_region at h
  split at h
  · next f hk =>
    simp only [Prod.mk.injEq, true_and] at h
    subst h
    obtain ⟨r, _, hcont, rfl⟩ := skipInvalid_eq_some hk
    have := contains_bounds hcont
    simp only []
    omega
  · simp at h

theorem within_false_eq {s s' : BumpAllocator}
    (h : within_invalid_region s = (false, s')) : s' = s := by
  unfold within_invalid_region at h
  split at h
  · simp at h
  · simp only [Prod.mk.injEq, true_and] at h
    exact h.symm

theorem allocateF_cursor : ∀ {n : Nat} {s s' : BumpAllocator} {res : Option Frame},
    allocateF n s = some (res, s') →
    s.next_free_frame.id ≤ s'.next_free_frame.id ∧
    (∀ f, res = some f →
      s.next_free_frame.id ≤ f.id ∧ s'.next_free_frame.id = f.id + 1) := by
  intro n
  induction n with
  | zero => intro s s' res h; simp [allocateF] at h
  | succ n ih =>
    intro s s' res h
    simp only [allocateF] at h
    split at h
    · next a hc =>
      split at h
      · next hlim =>
        obtain ⟨h1, h2⟩ := ih h
        have := advance_cursor_le s
        exact ⟨by omega, fun f hf => by have := (h2 f hf).1; have := (h2 f hf).2; omega⟩
      · next hlim =>
        split at h
        · next s₁ hw =>
          obtain ⟨h1, h2⟩ := ih h
          have := within_true_cursor hw
          exact ⟨by omega, fun f hf => by have := (h2 f hf).1; have := (h2 f hf).2; omega⟩
        · next s₁ hw =>
          have hse : s₁ = s := within_false_eq hw
          subst hse
          simp only [Option.some.injEq, Prod.mk.injEq] at h
          obtain ⟨hres, hs'⟩ := h
          subst hres
          subst hs'
          refine ⟨by simp, ?_⟩
          intro f hf
          cases hf
          simp
    · next hc =>
      simp only [Option.some.injEq, Prod.mk.injEq] at h
      obtain ⟨hres, hs'⟩ := h
      subst hres
      subst hs'
      exact ⟨Nat.le_refl _, fun f hf => by cases hf⟩

theorem allocate_cursor (s : BumpAllocator) :
    s.next_free_frame.id ≤ (allocate s).2.next_free_frame.id ∧
    (∀ f, (allocate s).1 = some f →
      s.next_free_frame.id ≤ f.id ∧
      (allocate s).2.next_free_frame.id = f.id + 1) :=
  allocateF_cursor (allocateF_fuelBound_eq s)

theorem runFrames_lb : ∀ (n : Nat) (s : BumpAllocator) (f : Frame),
    f ∈ runFrames n s → s.next_free_frame.id ≤ f.id := by
  intro n
  induction n with
  | zero => intro s f h; simp [runFrames, runAllocate] at h
  | succ n ih =>
    intro s f h
    obtain ⟨h1, h2⟩ := allocate_cursor s
    unfold runFrames runAllocate at h
    simp only [List.filterMap_cons] at h
    cases hr : (allocate s).1 with
    | none =>
      rw [hr] at h
      exact le_trans h1 (ih _ _ h)
    | some f0 =>
      rw [hr] at h
      simp only [id, List.mem_cons] at h
      rcases h with rfl | h
      · exact (h2 f hr).1
      · have hlb := ih _ _ h
        have := (h2 f0 hr).2
        omega

/-! ### Claim theorems: allocator -/

/-- C8: `allocate()` terminates on every allocator state: the step-counted
recursion `allocateF` always completes within the explicit budget
`fuelBound s` (the cursor strictly advances on every reserved-region skip,
region advancing never selects an area whose last frame is below the cursor,
and the cursor never exceeds the bound derived from the finite area and
region lists), so `allocate` is a total function agreeing with it. -/
theorem allocate_terminates_in_fuelBound :
    ∀ s : BumpAllocator, allocateF (fuelBound s) s = some (allocate s) :=
  fun s => allocateF_fuelBound_eq s

/-- C3: on a fixed memory map, the frames returned by successive successful
`allocate()` calls on one allocator are pairwise strictly increasing in frame
index (in particular no two calls ever return the same frame). -/
theorem allocate_run_strictMono : ∀ (n : Nat) (s : BumpAllocator),
    (runFrames n s).Pairwise (fun f g => f.id < g.id) := by
  intro n
  induction n with
  | zero => intro s; simp [runFrames, runAllocate]
  | succ n ih =>
    intro s
    have hrun : runFrames (n + 1) s =
        ((allocate s).1 :: (runAllocate n (allocate s).2).1).filterMap id := rfl
    rw [hrun, List.filterMap_cons]
    cases hr : (allocate s).1 with
    | none => exact ih (allocate s).2
    | some f0 =>
      refine List.Pairwise.cons ?_ (ih (allocate s).2)
      intro g hg
      have h2 := ((allocate_cursor s).2 f0 hr).2
      have hlb := runFrames_lb n (allocate s).2 g hg
      omega

/-! ### Claim theorems: concrete allocator scenarios -/

theorem allocate_exhausted {s : BumpAllocator} (h : s.current_area = none) :
    allocate s = (none, s) := by
  unfold allocate fuelBound
  simp only [allocateF, h]
  rfl

theorem runAllocate_exhausted {s : BumpAllocator} (h : s.current_area = none) :
    ∀ k, runAllocate k s = (List.replicate k none, s) := by
  intro k
  induction k with
  | zero => rfl
  | succ k ih =>
    unfold runAllocate
    rw [allocate_exhausted h]
    simp only [ih, List.replicate_succ]

theorem allocateF_none_current : ∀ {n : Nat} {s s' : BumpAllocator},
    allocateF n s = some (none, s') → s'.current_area = none := by
  intro n
  induction n with
  | zero => intro s s' h; simp [allocateF] at h
  | succ n ih =>
    intro s s' h
    simp only [allocateF] at h
    split at h
    · split at h
      · exact ih h
      · split at h
        · exact ih h
        · simp at h
    · next hc =>
      simp only [Option.some.injEq, Prod.mk.injEq] at h
      obtain ⟨_, hs⟩ := h
      subst hs
      exact hc

theorem allocate_none_current {s : BumpAllocator} (h : (allocate s).1 = none) :
    (allocate s).2.current_area = none := by
  have heq := allocateF_fuelBound_eq s
  have heq' : allocateF (fuelBound s) s = some (none, (allocate s).2) := by
    rw [heq, show allocate s = (none, (allocate s).2) from by rw [← h]]
  exact allocateF_none_current heq'

theorem runAllocate_sticky {s : BumpAllocator} (h : (allocate s).1 = none) :
    ∀ k, (runAllocate k s).1 = List.replicate k none := by
  intro k
  cases k with
  | zero => rfl
  | succ k =>
    have hcur : (allocate s).2.current_area = none := allocate_none_current h
    show (allocate s).1 :: (runAllocate k (allocate s).2).1 = _
    rw [h, runAllocate_exhausted hcur k]
    rfl

/-- C4: with a memory map of the single usable region `[0, 0x100000)`
(256 frames), a kernel-image reserved region of frames 10-19 (built from a
section spanning `[0xA000, 0x13000)`) and a boot-info reserved region of
frame 0 only (built from a boot structure at `[0, 0x1000)`), 256 calls to
`allocate()` on a freshly constructed allocator yield frames 1-9 then
20-255 in order (the remaining calls already report absence), and every
further call — any number of calls after the 256th — returns absent. -/
theorem allocate_scenario_256 :
    Region.from_multiboot_info 0 4096 = ⟨⟨0⟩, ⟨0⟩⟩ ∧
    Region.from_kernel_sections [⟨0xA000, 0x9000⟩] = some ⟨⟨10⟩, ⟨19⟩⟩ ∧
    (BumpAllocator.new 0 4096 [⟨0xA000, 0x9000⟩] [⟨0, 0x100000, 1⟩]).map
        (fun s => ((runAllocate 256 s).1, (allocate (runAllocate 256 s).2).1)) =
      some ((List.range' 1 9).map (fun n => some ⟨n⟩) ++
              (List.range' 20 236).map (fun n => some ⟨n⟩) ++
              List.replicate 11 none,
            none) ∧
    ∀ k, (BumpAllocator.new 0 4096 [⟨0xA000, 0x9000⟩] [⟨0, 0x100000, 1⟩]).map
        (fun s => (runAllocate k (runAllocate 256 s).2).1) =
      some (List.replicate k none) := by
  refine ⟨by decide, by decide, by decide, ?_⟩
  intro k
  have h257 : (BumpAllocator.new 0 4096 [⟨0xA000, 0x9000⟩] [⟨0, 0x100000, 1⟩]).map
      (fun s => (allocate (runAllocate 256 s).2).1) = some none := by decide
  cases hnew : BumpAllocator.new 0 4096 [⟨0xA000, 0x9000⟩] [⟨0, 0x100000, 1⟩] with
  | none => rw [hnew] at h257; simp at h257
  | some s0 =>
    rw [hnew] at h257
    simp only [Option.map_some', Option.some.injEq] at h257 ⊢
    exact runAllocate_sticky h257 k

/-- C2 fails on the code: `allocate` never consults the memory map's
usable/unusable classification, so on a map whose only area is marked
unusable (kind 2) it still hands out frame 0, which lies inside that
unusable area and outside both reserved regions. -/
theorem allocate_returns_unusable_area_frame :
    (BumpAllocator.new 0x5000 0x1000 [⟨0xA000, 0x9000⟩] [⟨0, 0x1000, 2⟩]).map
        (fun s => (allocate s).1) = some (some ⟨0⟩) ∧
    MemoryArea.kindIsUsable ⟨0, 0x1000, 2⟩ = false ∧
    ((Frame.containing ((0 : Nat))).id ≤ (0 : Nat) ∧
      (0 : Nat) ≤ (Frame.containing ((0 : Nat) + 0x1000 - 1)).id) ∧
    (Region.from_multiboot_info 0x5000 0x1000).contains ⟨0⟩ = false ∧
    (Region.from_kernel_sections [⟨0xA000, 0x9000⟩]).map
        (fun r => r.contains ⟨0⟩) = some false := by
  refine ⟨by decide, by decide, by decide, by decide, by decide⟩

/-- C5 fails on the code: with a usable area `[0, 0x1000)` followed by an
unusable area `[0x1000, 0x2000)` (reserved regions at frames 5 and 10-19,
away from both areas), the second `allocate()` call happens after the
cursor has advanced past frame 0, the highest frame of the highest usable
region, yet it returns frame 1 (drawn from the unusable area) instead of
absent. -/
theorem allocate_continues_past_usable_end :
    (BumpAllocator.new 0x5000 0x1000 [⟨0xA000, 0x9000⟩]
        [⟨0, 0x1000, 1⟩, ⟨0x1000, 0x1000, 2⟩]).map
        (fun s => (runAllocate 2 s).1) = some [some ⟨0⟩, some ⟨1⟩] ∧
    ([⟨0, 0x1000, 1⟩, ⟨0x1000, 0x1000, 2⟩] : List MemoryArea).all
        (fun a => !a.kindIsUsable ||
          decide ((Frame.containing (a.start + a.size - 1)).id < 1)) = true := by
  refine ⟨by decide, by decide⟩

/-! ### Claim theorems: page table entries -/

/-- C10: writing an entry for the frame containing physical address 0 with
flag word 0 produces the all-zero bit pattern, so the entry is
indistinguishable from the unused sentinel and `is_unused()` returns true
immediately afterwards. -/
theorem entry_set_zero_frame_unused :
    Entry.set (Frame.containing 0) 0 = Entry.set_unused ∧
    (Entry.set (Frame.containing 0) 0).is_unused = true := by
  refine ⟨by decide, by decide⟩

/-! ### Claim theorems: page table indices (C1) -/

/-- C1 counterexample: at page 1 and hierarchy level 1, the code's
`page_table_index` (which shifts by `level * 9`) disagrees with the claimed
formula `(id >> (level-1)*9) & 0x1ff`: the code yields 0 where the claim
demands 1. -/
theorem page_table_index_level_one_cex :
    Page.page_table_index ⟨1⟩ 1 ≠ page_table_index_spec ⟨1⟩ 1 := by
  decide

/-- C1 amended: the code's `level` argument is zero-based, so the index the
claim attributes to one-based hierarchy level `L` (1-4) is obtained as
`page_table_index (L - 1)`; with that shift of convention, for every
48-bit address the four level indices (the index for argument `L - 1`
occupying address bits `12 + (L-1)*9 .. 20 + (L-1)*9`) together with the
12-bit page offset recombine to exactly the original address. -/
theorem page_table_index_zero_based_recombine (a L : Nat)
    (_hL : 1 ≤ L ∧ L ≤ 4) (ha : a < 2 ^ 48) :
    (Page.containing a).page_table_index (L - 1) =
      page_table_index_spec (Page.containing a) L ∧
    (Page.containing a).page_table_index 3 * 2 ^ 39 +
      (Page.containing a).page_table_index 2 * 2 ^ 30 +
      (Page.containing a).page_table_index 1 * 2 ^ 21 +
      (Page.containing a).page_table_index 0 * 2 ^ 12 + a % 4096 = a := by
  constructor
  · rfl
  · simp only [Page.containing, Page.page_table_index, PAGE_SIZE, FRAME_SIZE,
      Nat.shiftRight_eq_div_pow]
    rw [show (0x1ff : Nat) = 2 ^ 9 - 1 by norm_num]
    simp only [Nat.and_pow_two_sub_one_eq_mod, Nat.div_div_eq_div_mul]
    norm_num
    omega

/-- Witness for the amended C1 at address `0x123456789ABC` and level 2. -/
theorem page_table_index_zero_based_recombine_w :
    (Page.containing 0x123456789ABC).page_table_index (2 - 1) =
      page_table_index_spec (Page.containing 0x123456789ABC) 2 ∧
    (Page.containing 0x123456789ABC).page_table_index 3 * 2 ^ 39 +
      (Page.containing 0x123456789ABC).page_table_index 2 * 2 ^ 30 +
      (Page.containing 0x123456789ABC).page_table_index 1 * 2 ^ 21 +
      (Page.containing 0x123456789ABC).page_table_index 0 * 2 ^ 12 +
      0x123456789ABC % 4096 = 0x123456789ABC :=
  page_table_index_zero_based_recombine 0x123456789ABC 2 (by decide) (by decide)

/-! ### Claim theorems: entry round trip (C6) -/

theorem testBit_false_of_mask {fl : Nat}
    (haddr : fl &&& 0x000ffffffffff000 = 0) :
    ∀ j, 12 ≤ j → j < 52 → fl.testBit j = false := by
  intro j hj1 hj2
  have h0 : (fl &&& 0x000ffffffffff000).testBit j = false := by
    rw [haddr]; exact Nat.zero_testBit j
  rw [Nat.testBit_and] at h0
  have hmaskbit : (0x000ffffffffff000 : Nat).testBit j = true := by
    rw [show (0x000ffffffffff000 : Nat) = (2 ^ 40 - 1) <<< 12 by decide]
    rw [Nat.testBit_shiftLeft, Nat.testBit_two_pow_sub_one]
    simp only [Bool.and_eq_true, decide_eq_true_eq, ge_iff_le]
    omega
  rw [hmaskbit] at h0
  simpa using h0

theorem lor_mask_extract {x fl : Nat} (hx : x < 2 ^ 40)
    (hmid : ∀ j, 12 ≤ j → j < 52 → fl.testBit j = false) :
    ((x * 2 ^ 12) ||| fl) &&& 0x000ffffffffff000 = x * 2 ^ 12 := by
  rw [show x * 2 ^ 12 = x <<< 12 by rw [Nat.shiftLeft_eq]]
  apply Nat.eq_of_testBit_eq
  intro j
  rw [show (0x000ffffffffff000 : Nat) = (2 ^ 40 - 1) <<< 12 by decide]
  simp only [Nat.testBit_and, Nat.testBit_or, Nat.testBit_shiftLeft,
    Nat.testBit_two_pow_sub_one]
  by_cases h12 : 12 ≤ j
  · by_cases h52 : j < 52
    · have h40 : j - 12 < 40 := by omega
      have hf := hmid j h12 h52
      simp [h12, h40, hf, ge_iff_le]
    · have h40 : ¬ (j - 12 < 40) := by omega
      have hxb : x.testBit (j - 12) = false := by
        apply Nat.testBit_lt_two_pow
        calc x < 2 ^ 40 := hx
          _ ≤ 2 ^ (j - 12) := Nat.pow_le_pow_right (by omega) (by omega)
      simp [h12, h40, hxb, ge_iff_le]
  · simp [h12, ge_iff_le]

/-- C6 counterexample: the claim fails for the flag word `0x1001`, which has
PRESENT set but also carries a bit inside the address field: writing frame 0
with it and reading the entry back yields frame 1, not frame 0. -/
theorem entry_set_round_trip_cex :
    0x1001 &&& ENTRY_PRESENT = ENTRY_PRESENT ∧
    (Entry.set ⟨0⟩ 0x1001).is_present = true ∧
    (Entry.set ⟨0⟩ 0x1001).pointed_frame ≠ some ⟨0⟩ := by
  refine ⟨by decide, by decide, by decide⟩

/-- C6 amended: for every frame whose index fits the entry's 40-bit frame
field and every 64-bit flag word with PRESENT set whose bits avoid the
address field (bits 12-51), writing the entry with `set(f, fl)` and reading
it back with `pointed_frame()` yields `f` again, and `is_present()` is
true. -/
theorem entry_set_round_trip (f : Frame) (fl : Nat)
    (hid : f.id < 2 ^ 40) (hfl : fl < 2 ^ 64)
    (hpresent : fl &&& ENTRY_PRESENT = ENTRY_PRESENT)
    (haddr : fl &&& 0x000ffffffffff000 = 0) :
    (Entry.set f fl).pointed_frame = some f ∧
    (Entry.set f fl).is_present = true := by
  obtain ⟨fid⟩ := f
  simp only [Frame.mk.injEq] at hid ⊢
  have hmid := testBit_false_of_mask haddr
  have hval : (Entry.set ⟨fid⟩ fl).val = fid * 2 ^ 12 ||| fl := by
    unfold Entry.set Frame.start FRAME_SIZE
    simp only []
    rw [Nat.mod_eq_of_lt (by omega : fid * 4096 < 2 ^ 64),
      Nat.mod_eq_of_lt hfl]
    norm_num
  unfold ENTRY_PRESENT at hpresent
  have hpres : (Entry.set ⟨fid⟩ fl).is_present = true := by
    unfold Entry.is_present ENTRY_PRESENT
    rw [hval]
    simp only [beq_iff_eq, Nat.and_one_is_mod, Nat.or_mod_two_eq_one]
    right
    rw [← Nat.and_one_is_mod]
    exact hpresent
  refine ⟨?_, hpres⟩
  unfold Entry.pointed_frame
  rw [if_pos hpres, hval, lor_mask_extract hid hmid]
  unfold Frame.containing FRAME_SIZE
  have : fid * 2 ^ 12 / 4096 = fid := by omega
  rw [this]

/-- Witness for the amended C6 at frame 3 with flags `PRESENT | WRITABLE`. -/
theorem entry_set_round_trip_w :
    (Entry.set ⟨3⟩ 3).pointed_frame = some ⟨3⟩ ∧
    (Entry.set ⟨3⟩ 3).is_present = true :=
  entry_set_round_trip ⟨3⟩ 3 (by decide) (by decide) (by decide) (by decide)

/-! ### Claim theorems: table indexing and creation (C7, C9) -/

/-- C7: on a hierarchical (level >= 2) table, the lookup behind
`index(i)`/`index_mut(i)` produces an absent value exactly when the entry at
`i` is not present or has the HUGE bit set; when the entry is present and
not huge it produces the recursive-scheme virtual address
`(table_address << 9) | (i << 12)` of the table one level below, which
`index`/`index_mut` then return as a reference. -/
theorem table_index_addr_absent_iff (t : Table) (a i : Nat)
    (hi : i < t.entries.length) :
    Table.index_addr t a i =
      if t.entries[i].is_present && !t.entries[i].is_huge then
        some (((a <<< 9) % 2 ^ 64) ||| ((i <<< 12) % 2 ^ 64))
      else none := by
  unfold Table.index_addr
  rw [List.getElem?_eq_getElem hi]
  rfl

/-- Witness for C7: a present-and-huge entry (value 129) yields an absent
lower table. -/
theorem table_index_addr_absent_iff_w :
    Table.index_addr ⟨[⟨3⟩, ⟨129⟩]⟩ 7 1 = none :=
  (table_index_addr_absent_iff ⟨[⟨3⟩, ⟨129⟩]⟩ 7 1 (by decide)).trans (by decide)

/-- C9: on a table whose entry at `i` is PRESENT with the HUGE bit set,
`create(i, allocator)` does not descend into or reuse the existing mapping:
it draws a fresh frame from the allocator and overwrites entry `i` with
that frame's address OR-ed with `PRESENT | WRITABLE`, discarding the
previous huge mapping. -/
theorem create_overwrites_huge_entry (t : Table) (a i : Nat)
    (al al' : BumpAllocator) (f : Frame)
    (hi : i < t.entries.length)
    (hp : t.entries[i].is_present = true)
    (hh : t.entries[i].is_huge = true)
    (hal : allocate al = (some f, al')) :
    Table.create t a i al =
      some (⟨t.entries.set i (Entry.set f (ENTRY_PRESENT ||| ENTRY_WRITABLE))⟩,
            al', Table.index_addr_unchecked a i) := by
  have hcond : (t.entries[i].is_present && !t.entries[i].is_huge) = false := by
    rw [hp, hh]; rfl
  have hnone : Table.index_addr t a i = none := by
    unfold Table.index_addr
    rw [List.getElem?_eq_getElem hi]
    show (if (t.entries[i].is_present && !t.entries[i].is_huge) = true
      then some (Table.index_addr_unchecked a i) else none) = none
    rw [hcond]
    rfl
  unfold Table.create
  rw [hnone, hal]

/-- Witness for C9: the single-entry table holding the present-and-huge
entry 129, with a small one-area allocator that hands out frame 0. -/
theorem create_overwrites_huge_entry_w :
    Table.create ⟨[⟨129⟩]⟩ 7 0
        ⟨⟨0⟩, [⟨0, 4096, 1⟩], some ⟨0, 4096, 1⟩, [⟨⟨5⟩, ⟨5⟩⟩, ⟨⟨6⟩, ⟨6⟩⟩]⟩ =
      some (⟨[⟨3⟩]⟩,
            ⟨⟨1⟩, [⟨0, 4096, 1⟩], some ⟨0, 4096, 1⟩, [⟨⟨5⟩, ⟨5⟩⟩, ⟨⟨6⟩, ⟨6⟩⟩]⟩,
            3584) :=
  (create_overwrites_huge_entry ⟨[⟨129⟩]⟩ 7 0
      ⟨⟨0⟩, [⟨0, 4096, 1⟩], some ⟨0, 4096, 1⟩, [⟨⟨5⟩, ⟨5⟩⟩, ⟨⟨6⟩, ⟨6⟩⟩]⟩
      ⟨⟨1⟩, [⟨0, 4096, 1⟩], some ⟨0, 4096, 1⟩, [⟨⟨5⟩, ⟨5⟩⟩, ⟨⟨6⟩, ⟨6⟩⟩]⟩
      ⟨0⟩ (by decide) (by decide) (by decide) (by decide)).trans (by decide)
